import Mathlib

/-!
Shallow embedding of the cross-locale quest deduplication and
notification-dispatch pipeline of the qwesty repository.

Sources embedded:
- src/models/quest.rs        (Quest, StoredQuest, reward classification)
- src/utils/collections.rs   (dedupe_by_key)
- src/services/storage.rs    (filter_quests, find_new_quests, load_stored_quests)
- src/collector.rs           (check_quests_all_locales, the locale scan cycle)
- src/services/ingest.rs     (ingest_handler, post-authentication core)

Rust u32 becomes Nat (no arithmetic near overflow occurs in the embedded
code), Vec becomes List, HashSet membership becomes list membership on the
collected keys. Structure fields of the upstream Quest payload that the
embedded core never reads (assets, colors, task configs, cta, features,
application, user status) are omitted; the payload is otherwise opaque and
is only filtered by config.id and forwarded to the notification sinks.
Effects are made explicit: the persistent store is threaded state, each
notify_full call appends the batch it was given to a notification log, and
each pacing sleep appends its duration to a delay log.
-/

namespace Qwesty

/-- Messages of a reward, from src/models/quest.rs (QuestRewardMessages). -/
structure QuestRewardMessages where
  name : String
  name_with_article : String
deriving DecidableEq, Repr

/-- One reward entry, from src/models/quest.rs (QuestReward). -/
structure QuestReward where
  type : Nat
  sku_id : String
  asset : Option String
  messages : QuestRewardMessages
  orb_quantity : Option Nat
deriving DecidableEq, Repr

/-- Rewards configuration, from src/models/quest.rs (QuestRewardsConfig). -/
structure QuestRewardsConfig where
  assignment_method : Nat
  rewards : List QuestReward
  rewards_expire_at : Option String
  platforms : List Nat
deriving DecidableEq, Repr

/-- Display messages, from src/models/quest.rs (QuestMessages). -/
structure QuestMessages where
  quest_name : String
  game_title : String
  game_publisher : String
deriving DecidableEq, Repr

/-- Quest configuration, from src/models/quest.rs (QuestConfig); fields the
embedded core never reads are omitted (see module comment). -/
structure QuestConfig where
  id : String
  config_version : Nat
  starts_at : String
  expires_at : String
  messages : QuestMessages
  rewards_config : QuestRewardsConfig
deriving DecidableEq, Repr

/-- Upstream quest payload, from src/models/quest.rs (Quest). -/
structure Quest where
  id : String
  config : QuestConfig
deriving DecidableEq, Repr

/-- Persisted record, from src/models/quest.rs (StoredQuest). -/
structure StoredQuest where
  id : String
  name : String
  reward : String
  reward_type : String
  expires_at : String
  game_name : String
deriving DecidableEq, Repr

/-- Reward classification from src/models/quest.rs (determine_reward_type):
classify by the numeric type of the first reward, "other" when the reward
list is empty or the type is unrecognized. -/
def determine_reward_type (rewards_config : QuestRewardsConfig) : String :=
  match rewards_config.rewards with
  | [] => "other"
  | first_reward :: _ =>
    match first_reward.type with
    | 4 => "orbs"
    | 3 => "decor"
    | 1 => "code"
    | 2 => "ingame"
    | _ => "other"

/-- Reward display name from src/models/quest.rs (get_reward_name). -/
def get_reward_name (rewards_config : QuestRewardsConfig) : String :=
  match rewards_config.rewards with
  | [] => "Unknown Reward"
  | r :: _ => r.messages.name

/-- Derivation of a StoredQuest from a Quest, from src/models/quest.rs
(impl From for StoredQuest). -/
def StoredQuest.fromQuest (quest : Quest) : StoredQuest :=
  { id := quest.config.id
    name := quest.config.messages.quest_name
    reward := get_reward_name quest.config.rewards_config
    reward_type := determine_reward_type quest.config.rewards_config
    expires_at := quest.config.expires_at
    game_name := quest.config.messages.game_title }

/-- Reward filter from src/services/storage.rs (filter_quests): filter_map
over the input, matching on the filter string. -/
def filter_quests (quests : List Quest) (filter : String) : List StoredQuest :=
  quests.filterMap (fun quest =>
    let stored := StoredQuest.fromQuest quest
    if filter = "orbs" then
      if stored.reward_type = "orbs" then some stored else none
    else if filter = "decor" then
      if stored.reward_type = "decor" then some stored else none
    else if filter = "all" then some stored
    else none)

/-- New-quest detection from src/services/storage.rs (find_new_quests):
keep the candidates whose full id is not the id of any stored record. -/
def find_new_quests (all_quests stored_quests : List StoredQuest) : List StoredQuest :=
  all_quests.filter (fun q => !(stored_quests.any (fun stored => stored.id == q.id)))

/-- Accumulator recursion behind dedupe_by_key: the HashMap of first-seen
keys of src/utils/collections.rs becomes the list of keys seen so far. -/
def dedupeByKeyAux {T K : Type} [DecidableEq K] (key_fn : T → K) :
    List T → List K → List T
  | [], _ => []
  | item :: rest, seen =>
    if key_fn item ∈ seen then dedupeByKeyAux key_fn rest seen
    else item :: dedupeByKeyAux key_fn rest (key_fn item :: seen)

/-- Key-wise dedupe from src/utils/collections.rs (dedupe_by_key): for each
key the first occurrence in iteration order is kept (entry().or_insert in
the source); the source returns the map's values in arbitrary order, the
embedding fixes first-occurrence order. -/
def dedupe_by_key {T K : Type} [DecidableEq K] (items : List T) (key_fn : T → K) : List T :=
  dedupeByKeyAux key_fn items []

/-- Base-id extraction as written at every comparison site in
src/collector.rs and src/services/ingest.rs:
q.id.split(colon).next_back().unwrap_or(q.id). The last component of a
split on the colon character is the suffix of the string after its final
colon (the whole string when no colon occurs, the empty string when the
string ends with a colon), computed here directly on the character list;
split always yields at least one component, so the unwrap_or branch of
the source is dead. -/
def baseId (id : String) : String :=
  String.mk ((id.data.reverse.takeWhile (fun c => c ≠ ':')).reverse)

/-- Pacing jitter of src/collector.rs (line 22): 60 + (random u8 % 11).
The random byte is a Nat reduced mod 256. -/
def pacingDelay (b : Nat) : Nat := 60 + (b % 256) % 11

/-- State threaded through the locale scan loop of src/collector.rs:
the stored variable, the persisted store contents, the session
accumulator, and the logs of dispatched batches and pacing delays. -/
structure CycleState where
  stored : List StoredQuest
  store : List StoredQuest
  all_filtered_quests : List StoredQuest
  notifLog : List (List Quest)
  delayLog : List Nat
deriving DecidableEq, Repr

/-- One iteration of the per-locale loop of src/collector.rs (lines
27-113), the pacing delay excluded (handled by the loop): the fetch result
is the quests argument, each notify_full call appends its batch to the log
(once per configured notifier), and a non-empty new set persists the
merged store. -/
def localeStep (reward_filter : String) (numNotifiers : Nat) (seed_only : Bool)
    (locale : String) (quests : List Quest) (s : CycleState) : CycleState :=
  let filtered := filter_quests quests reward_filter
  let filtered_rekeyed := filtered.map (fun sq => { sq with id := locale ++ ":" ++ sq.id })
  let seen_base := s.stored.map (fun q => baseId q.id)
  let found := if seed_only then [] else find_new_quests filtered_rekeyed s.stored
  let new_for_locale := found.filter (fun q => !(seen_base.contains (baseId q.id)))
  if new_for_locale.isEmpty then
    { s with all_filtered_quests := s.all_filtered_quests ++ filtered_rekeyed }
  else
    let new_ids := new_for_locale.map (fun q => baseId q.id)
    let full_new_quests := quests.filter (fun q => new_ids.contains q.config.id)
    let stored2 := s.stored ++ new_for_locale
    let merged_local_stored := dedupe_by_key stored2 (fun q => q.id)
    { stored := stored2
      store := merged_local_stored
      all_filtered_quests := s.all_filtered_quests ++ filtered_rekeyed
      notifLog := s.notifLog ++ List.replicate numNotifiers full_new_quests
      delayLog := s.delayLog }

/-- The indexed locale loop of src/collector.rs (lines 20-114): before
every locale except the first, the pacing sleep records its duration; the
rand argument supplies the random byte drawn at index i. -/
def runLocales (reward_filter : String) (numNotifiers : Nat) (seed_only : Bool)
    (fetch : String → List Quest) (rand : Nat → Nat) :
    Nat → List String → CycleState → CycleState
  | _, [], s => s
  | i, locale :: rest, s =>
    let s1 := if 0 < i then { s with delayLog := s.delayLog ++ [pacingDelay (rand i)] } else s
    let s2 := localeStep reward_filter numNotifiers seed_only locale (fetch locale) s1
    runLocales reward_filter numNotifiers seed_only fetch rand (i + 1) rest s2

/-- Observable outcome of one scan cycle. -/
structure CycleResult where
  notifLog : List (List Quest)
  delayLog : List Nat
  reloaded : List StoredQuest
  all_filtered_quests : List StoredQuest
  finalStore : List StoredQuest
deriving DecidableEq, Repr

/-- The full scan cycle of src/collector.rs (check_quests_all_locales).
The persistent store is threaded sequentially: a load returns the current
contents, a save replaces them; store0 is the contents at the initial
load. Fetch and notification failures are not modelled — the claims under
proof concern completed cycles. After the locales, the store is reloaded,
the cross-locale pass runs (skipped when seed_only), then the dedupe of
the session accumulator is saved (lines 116-152). -/
def check_quests_all_locales (fetch : String → List Quest) (numNotifiers : Nat)
    (reward_filter : String) (locales : List String) (initial_send_all : Bool)
    (rand : Nat → Nat) (store0 : List StoredQuest) : CycleResult :=
  let stored := store0
  let seed_only := stored.isEmpty && !initial_send_all
  let s := runLocales reward_filter numNotifiers seed_only fetch rand 0 locales
    { stored := stored, store := store0, all_filtered_quests := [],
      notifLog := [], delayLog := [] }
  let stored2 := s.store
  let new_quests := find_new_quests s.all_filtered_quests stored2
  let log2 :=
    if seed_only then s.notifLog
    else if new_quests.isEmpty then s.notifLog
    else
      let all_quests := fetch "en-US"
      let new_quest_ids := new_quests.map (fun q => baseId q.id)
      let full_new_quests := all_quests.filter (fun q => new_quest_ids.contains q.config.id)
      s.notifLog ++ List.replicate numNotifiers full_new_quests
  let merged_quests := dedupe_by_key s.all_filtered_quests (fun q => q.id)
  { notifLog := log2
    delayLog := s.delayLog
    reloaded := stored2
    all_filtered_quests := s.all_filtered_quests
    finalStore := merged_quests }

/-- Observable outcome of one ingest request. -/
structure IngestOut where
  accepted : Nat
  deduped : Nat
  store : List StoredQuest
  notifLog : List (List Quest)
  saved : Bool
deriving DecidableEq, Repr

/-- Post-authentication core of src/services/ingest.rs (ingest_handler,
lines 93-163): stored is the load result and the returned store the
contents after the handler (saved = false on the early return, where no
save happens). notify_full is dispatched once per notifier only when the
notifier list and the suppressed payload list are non-empty; a sink
failure is logged and ignored by the source, so the log records every
dispatched batch. -/
def ingest_handler (region : String) (quests : List Quest)
    (numNotifiers : Nat) (stored : List StoredQuest) : IngestOut :=
  let before := stored.length
  let new_entries := quests.map (fun q =>
    let sq := StoredQuest.fromQuest q
    { sq with id := region ++ ":" ++ sq.id })
  let new_only := find_new_quests new_entries stored
  if new_only.isEmpty then
    { accepted := 0, deduped := 0, store := stored, notifLog := [], saved := false }
  else
    let notifLog :=
      if numNotifiers ≠ 0 then
        let new_quest_ids0 := new_only.map (fun q => baseId q.id)
        let seen_base := stored.map (fun q => baseId q.id)
        let new_quest_ids := new_quest_ids0.filter (fun id => !(seen_base.contains id))
        let full_new_quests := quests.filter (fun q => new_quest_ids.contains q.config.id)
        if full_new_quests.isEmpty then [] else List.replicate numNotifiers full_new_quests
      else []
    let stored2 := stored ++ new_only
    let merged := dedupe_by_key stored2 (fun q => q.id)
    { accepted := new_only.length
      deduped := merged.length - before
      store := merged
      notifLog := notifLog
      saved := true }

/-- Progress of one concurrently running ingest handler: not yet started,
holding the snapshot its load returned, or finished. -/
inductive TaskPhase
  | ready
  | loaded (snapshot : List StoredQuest)
  | finished
deriving DecidableEq, Repr

/-- One in-flight ingest request. -/
structure IngestTask where
  region : String
  quests : List Quest
  phase : TaskPhase
deriving DecidableEq, Repr

/-- Two concurrent ingest requests sharing the store of
src/services/storage.rs; dispatches counts the notify_full calls made with
a non-empty batch across both. -/
structure ConcState where
  store : List StoredQuest
  t0 : IngestTask
  t1 : IngestTask
  dispatches : Nat
deriving DecidableEq, Repr

/-- One atomic step of an ingest task. The load holds the storage mutex
only while snapshotting the store (load_stored_quests); the rest of the
handler — decision, notification, merge, save — runs from that snapshot
and commits its merged result when it saved. The await points of the
source between the two let the other task interleave. -/
def taskStep (numNotifiers : Nat) (store : List StoredQuest) (t : IngestTask) :
    IngestTask × List StoredQuest × Nat :=
  match t.phase with
  | .ready => ({ t with phase := .loaded store }, store, 0)
  | .loaded snapshot =>
    let out := ingest_handler t.region t.quests numNotifiers snapshot
    ({ t with phase := .finished }, if out.saved then out.store else store,
      out.notifLog.length)
  | .finished => (t, store, 0)

/-- Run one step of the chosen task (false = first task, true = second). -/
def stepSys (numNotifiers : Nat) (s : ConcState) (which : Bool) : ConcState :=
  if which then
    let r := taskStep numNotifiers s.store s.t1
    { s with t1 := r.1, store := r.2.1, dispatches := s.dispatches + r.2.2 }
  else
    let r := taskStep numNotifiers s.store s.t0
    { s with t0 := r.1, store := r.2.1, dispatches := s.dispatches + r.2.2 }

/-- Run the two tasks under an interleaving schedule. -/
def runSched (numNotifiers : Nat) : ConcState → List Bool → ConcState
  | s, [] => s
  | s, b :: rest => runSched numNotifiers (stepSys numNotifiers s b) rest

/-- Backing file of the json storage backend: missing, present but
unreadable or unparsable, or parsed to a record list. -/
inductive FileState
  | missing
  | unreadable
  | parsed (quests : List StoredQuest)
deriving DecidableEq, Repr

/-- Explicit state of the storage backend of src/services/storage.rs:
the configured storage type, the in-memory vector, and the json file. -/
structure StorageState where
  storage_type : String
  memory : List StoredQuest
  file : FileState
deriving DecidableEq, Repr

/-- load_stored_quests from src/services/storage.rs (lines 35-71): match
on the storage type; the json branch returns empty when the file is
missing and when read_json_file errors (unreadable or unparsable), the
unknown-backend branch warns and returns empty. Total, no error value. -/
def load_stored_quests (st : StorageState) : List StoredQuest :=
  if st.storage_type = "memory" then st.memory
  else if st.storage_type = "json" then
    match st.file with
    | .missing => []
    | .unreadable => []
    | .parsed quests => quests
  else []

/-- Concrete upstream quest used by witnesses and counterexamples: base id
Q1, first reward of numeric type 4, hence reward_type orbs. -/
def questQ1 : Quest :=
  { id := "Q1"
    config :=
      { id := "Q1"
        config_version := 1
        starts_at := "s"
        expires_at := "e"
        messages := { quest_name := "N", game_title := "G", game_publisher := "P" }
        rewards_config :=
          { assignment_method := 1
            rewards := [{ type := 4, sku_id := "sku", asset := none
                          messages := { name := "R", name_with_article := "an R" }
                          orb_quantity := some 1 }]
            rewards_expire_at := none
            platforms := [0] } } }

/-- The record derived from questQ1 as stored under the us region tag. -/
def usQ1 : StoredQuest := { StoredQuest.fromQuest questQ1 with id := "us:Q1" }

/-- An unrelated record (base id Q9 under region zz), standing for a
record written to the store by another code path. -/
def zzQ9 : StoredQuest :=
  { id := "zz:Q9", name := "n", reward := "r", reward_type := "orbs"
    expires_at := "e", game_name := "g" }

/-- The session accumulator as a function of the cycle inputs: each
locale's filtered, locale-rekeyed candidates, concatenated in locale
order (the all_filtered_quests variable of src/collector.rs). -/
def sessionCandidates (fetch : String → List Quest) (reward_filter : String)
    (locales : List String) : List StoredQuest :=
  locales.flatMap (fun locale =>
    (filter_quests (fetch locale) reward_filter).map
      (fun sq => { sq with id := locale ++ ":" ++ sq.id }))

/-- The pacing delays a scan over n locales records when the loop index
starts at i: one delay per locale whose index is positive, none before
index zero. -/
def delaysFrom (rand : Nat → Nat) : Nat → Nat → List Nat
  | _, 0 => []
  | i, n + 1 =>
    (if 0 < i then [pacingDelay (rand i)] else []) ++ delaysFrom rand (i + 1) n

/-- Two racing ingest requests carrying base id Q1 under the regions us
and eu against an empty store, with one notifier configured. -/
def raceInit : ConcState :=
  { store := []
    t0 := { region := "us", quests := [questQ1], phase := TaskPhase.ready }
    t1 := { region := "eu", quests := [questQ1], phase := TaskPhase.ready }
    dispatches := 0 }

example : baseId "us:Q1" = "Q1" := by decide
example : baseId "Q1" = "Q1" := by decide
example : baseId "a:b:c" = "c" := by decide
example : baseId "us:" = "" := by decide

/-- C6: find_new_quests returns exactly the candidates whose full id is
not the id of any known record — membership characterization, equality
with the declarative filter, and order preservation (sublist of the
candidate list). -/
theorem find_new_quests_spec (cand known : List StoredQuest) :
    (∀ q, q ∈ find_new_quests cand known ↔ q ∈ cand ∧ ∀ s ∈ known, s.id ≠ q.id) ∧
    find_new_quests cand known
      = cand.filter (fun q => decide (∀ s ∈ known, s.id ≠ q.id)) ∧
    (find_new_quests cand known).Sublist cand := by
  refine ⟨?_, ?_, List.filter_sublist _⟩
  · intro q
    simp only [find_new_quests, List.mem_filter, Bool.not_eq_true', List.any_eq_false,
      beq_iff_eq]
  · unfold find_new_quests
    apply List.filter_congr
    intro q _
    cases hb : known.any (fun stored => stored.id == q.id) with
    | false =>
      have hall : ∀ s ∈ known, s.id ≠ q.id := by
        intro s hs
        have := List.any_eq_false.mp hb s hs
        simpa using this
      rw [decide_eq_true hall]
      rfl
    | true =>
      have hex : ¬ ∀ s ∈ known, s.id ≠ q.id := by
        rcases List.any_eq_true.mp hb with ⟨s, hs, he⟩
        push_neg
        exact ⟨s, hs, by simpa using he⟩
      rw [decide_eq_false hex]
      rfl

/-- Witness for find_new_quests_spec at a concrete input: a candidate
under a fresh composite id passes against a known set holding the same
base quest under another region. -/
theorem find_new_quests_witness :
    { StoredQuest.fromQuest questQ1 with id := "eu:Q1" }
      ∈ find_new_quests [{ StoredQuest.fromQuest questQ1 with id := "eu:Q1" }] [usQ1] :=
  ((find_new_quests_spec [{ StoredQuest.fromQuest questQ1 with id := "eu:Q1" }] [usQ1]).1
    { StoredQuest.fromQuest questQ1 with id := "eu:Q1" }).mpr (by decide)

/-- C8: filter_quests passes every derived record for the all filter,
exactly the records whose reward_type equals the filter string for orbs
and decor, and nothing for any other filter value. -/
theorem filter_quests_spec (quests : List Quest) (filter : String) :
    filter_quests quests "all" = quests.map StoredQuest.fromQuest ∧
    filter_quests quests "orbs"
      = (quests.map StoredQuest.fromQuest).filter
          (fun sq => sq.reward_type == "orbs") ∧
    filter_quests quests "decor"
      = (quests.map StoredQuest.fromQuest).filter
          (fun sq => sq.reward_type == "decor") ∧
    (filter ≠ "all" → filter ≠ "orbs" → filter ≠ "decor" →
      filter_quests quests filter = []) := by
  refine ⟨?_, ?_, ?_, ?_⟩
  · induction quests with
    | nil => rfl
    | cons q rest ih =>
      simp [filter_quests] at ih ⊢
      exact ih
  · induction quests with
    | nil => rfl
    | cons q rest ih =>
      simp [filter_quests] at ih ⊢
      by_cases h : (StoredQuest.fromQuest q).reward_type = "orbs" <;>
        simp [h, ih]
  · induction quests with
    | nil => rfl
    | cons q rest ih =>
      simp [filter_quests] at ih ⊢
      by_cases h : (StoredQuest.fromQuest q).reward_type = "decor" <;>
        simp [h, ih]
  · intro h1 h2 h3
    induction quests with
    | nil => rfl
    | cons q rest ih =>
      simp [filter_quests, h1, h2, h3] at ih ⊢

/-- Witness for filter_quests_spec: an unrecognized filter value yields
the empty result on a non-empty input. -/
theorem filter_quests_witness : filter_quests [questQ1] "bogus" = [] :=
  (filter_quests_spec [questQ1] "bogus").2.2.2 (by decide) (by decide) (by decide)

/-- C10: load_stored_quests is total and returns the empty list for a
missing file, an unreadable or unparsable file, and an unknown storage
type, which makes each of those states indistinguishable at this
interface from a first run over the json backend with no file yet. -/
theorem load_stored_quests_spec (st : StorageState) :
    (st.storage_type = "json" →
      (st.file = FileState.missing ∨ st.file = FileState.unreadable) →
      load_stored_quests st = []) ∧
    (st.storage_type ≠ "memory" → st.storage_type ≠ "json" →
      load_stored_quests st = []) ∧
    load_stored_quests
      { storage_type := "json", memory := st.memory, file := FileState.missing } = [] := by
  refine ⟨?_, ?_, by simp [load_stored_quests]⟩
  · intro hjson hfile
    rcases hfile with h | h <;> simp [load_stored_quests, hjson, h]
  · intro hmem hjson
    simp [load_stored_quests, hmem, hjson]

/-- Witness for load_stored_quests_spec: an unknown backend identifier
yields the empty list even when both backends hold records. -/
theorem load_stored_quests_witness :
    load_stored_quests
      { storage_type := "bogus", memory := [usQ1], file := FileState.parsed [usQ1] } = [] :=
  (load_stored_quests_spec
    { storage_type := "bogus", memory := [usQ1], file := FileState.parsed [usQ1] }).2.1
    (by decide) (by decide)

/-- Elements returned by the dedupe accumulator recursion come from its
input list. -/
theorem mem_of_mem_dedupeByKeyAux {T K : Type} [DecidableEq K] (f : T → K)
    (l : List T) (seen : List K) (r : T)
    (h : r ∈ dedupeByKeyAux f l seen) : r ∈ l := by
  induction l generalizing seen with
  | nil => simp [dedupeByKeyAux] at h
  | cons x xs ih =>
    simp only [dedupeByKeyAux] at h
    by_cases hx : f x ∈ seen
    · rw [if_pos hx] at h
      exact List.mem_cons_of_mem _ (ih _ h)
    · rw [if_neg hx] at h
      rcases List.mem_cons.mp h with h | h
      · subst h
        exact List.mem_cons_self _ _
      · exact List.mem_cons_of_mem _ (ih _ h)

/-- Membership in the dedupe accumulator recursion: exactly the elements
whose key is outside the seen set and that are the first occurrence of
their key in the remaining input. -/
theorem mem_dedupeByKeyAux_iff {T K : Type} [DecidableEq K] (f : T → K)
    (l : List T) (seen : List K) (r : T) :
    r ∈ dedupeByKeyAux f l seen ↔
      f r ∉ seen ∧ l.find? (fun y => decide (f y = f r)) = some r := by
  induction l generalizing seen with
  | nil => simp [dedupeByKeyAux]
  | cons x xs ih =>
    simp only [dedupeByKeyAux]
    by_cases hx : f x ∈ seen
    · rw [if_pos hx, ih]
      constructor
      · rintro ⟨hr, hfind⟩
        have hpx : ¬ ((fun y => decide (f y = f r)) x = true) := by
          simp only [decide_eq_true_eq]
          intro he
          exact hr (he ▸ hx)
        rw [List.find?_cons_of_neg (p := fun y => decide (f y = f r)) _ hpx]
        exact ⟨hr, hfind⟩
      · rintro ⟨hr, hfind⟩
        have hpx : ¬ ((fun y => decide (f y = f r)) x = true) := by
          simp only [decide_eq_true_eq]
          intro he
          exact hr (he ▸ hx)
        rw [List.find?_cons_of_neg (p := fun y => decide (f y = f r)) _ hpx] at hfind
        exact ⟨hr, hfind⟩
    · rw [if_neg hx]
      constructor
      · intro h
        rcases List.mem_cons.mp h with rfl | hmem
        · refine ⟨hx, ?_⟩
          rw [List.find?_cons_of_pos (p := fun y => decide (f y = f r)) _ (by simp)]
        · obtain ⟨hr2, hfind⟩ := (ih _).mp hmem
          have hrx : f r ≠ f x := by
            intro he
            exact hr2 (by simp [he])
          refine ⟨fun hc => hr2 (List.mem_cons_of_mem _ hc), ?_⟩
          have hpx : ¬ ((fun y => decide (f y = f r)) x = true) := by
            simp only [decide_eq_true_eq]
            intro he
            exact hrx he.symm
          rw [List.find?_cons_of_neg (p := fun y => decide (f y = f r)) _ hpx]
          exact hfind
      · rintro ⟨hr, hfind⟩
        by_cases hpx : f x = f r
        · rw [List.find?_cons_of_pos (p := fun y => decide (f y = f r)) _ (by simp [hpx])] at hfind
          have : x = r := by simpa using hfind
          subst this
          exact List.mem_cons_self _ _
        · rw [List.find?_cons_of_neg (p := fun y => decide (f y = f r)) _ (by simp [hpx])] at hfind
          refine List.mem_cons_of_mem _ ((ih _).mpr ⟨?_, hfind⟩)
          intro hc
          rcases List.mem_cons.mp hc with he | he
          · exact hpx he.symm
          · exact hr he

/-- The keys of the dedupe accumulator recursion are pairwise distinct
and disjoint from the seen set. -/
theorem dedupeByKeyAux_keys {T K : Type} [DecidableEq K] (f : T → K)
    (l : List T) (seen : List K) :
    ((dedupeByKeyAux f l seen).map f).Nodup ∧
    ∀ k ∈ (dedupeByKeyAux f l seen).map f, k ∉ seen := by
  induction l generalizing seen with
  | nil => simp [dedupeByKeyAux]
  | cons x xs ih =>
    simp only [dedupeByKeyAux]
    by_cases hx : f x ∈ seen
    · rw [if_pos hx]
      exact ih seen
    · rw [if_neg hx]
      obtain ⟨hnd, hnotin⟩ := ih (f x :: seen)
      refine ⟨?_, ?_⟩
      · simp only [List.map_cons, List.nodup_cons]
        refine ⟨?_, hnd⟩
        intro hmem
        exact (hnotin _ hmem) (List.mem_cons_self _ _)
      · intro k hk
        simp only [List.map_cons, List.mem_cons] at hk
        rcases hk with rfl | hk
        · exact hx
        · intro hkseen
          exact (hnotin k hk) (List.mem_cons_of_mem _ hkseen)

/-- On an input whose keys are already pairwise distinct and disjoint
from the seen set, the dedupe accumulator recursion is the identity. -/
theorem dedupeByKeyAux_eq_self {T K : Type} [DecidableEq K] (f : T → K)
    (l : List T) (seen : List K)
    (hnd : (l.map f).Nodup) (hdis : ∀ k ∈ l.map f, k ∉ seen) :
    dedupeByKeyAux f l seen = l := by
  induction l generalizing seen with
  | nil => rfl
  | cons x xs ih =>
    simp only [dedupeByKeyAux]
    have hx : f x ∉ seen := hdis (f x) (by simp)
    rw [if_neg hx]
    congr 1
    simp only [List.map_cons, List.nodup_cons] at hnd
    apply ih
    · exact hnd.2
    · intro k hk hmem
      rcases List.mem_cons.mp hmem with rfl | hmem2
      · exact hnd.1 hk
      · exact hdis k (by simp [hk]) hmem2

/-- C7: dedupe_by_key keeps, for each key occurring in the input, exactly
the first occurrence encountered when iterating the input sequence
(membership is equivalent to being the result of find? on one's own key);
the resulting keys are pairwise distinct; and re-applying it to its own
output is the identity. -/
theorem dedupe_by_key_spec {T K : Type} [DecidableEq K]
    (items : List T) (key_fn : T → K) :
    (∀ r, r ∈ dedupe_by_key items key_fn ↔
      items.find? (fun y => decide (key_fn y = key_fn r)) = some r) ∧
    ((dedupe_by_key items key_fn).map key_fn).Nodup ∧
    dedupe_by_key (dedupe_by_key items key_fn) key_fn
      = dedupe_by_key items key_fn := by
  refine ⟨?_, (dedupeByKeyAux_keys key_fn items []).1, ?_⟩
  · intro r
    rw [dedupe_by_key, mem_dedupeByKeyAux_iff]
    simp
  · exact dedupeByKeyAux_eq_self key_fn _ []
      (dedupeByKeyAux_keys key_fn items []).1 (fun k _ => List.not_mem_nil k)

/-- Witness for dedupe_by_key_spec: in a list repeating the key us:Q1,
the first occurrence is kept. -/
theorem dedupe_by_key_witness :
    usQ1 ∈ dedupe_by_key [usQ1, usQ1, zzQ9] (fun q => q.id) :=
  ((dedupe_by_key_spec [usQ1, usQ1, zzQ9] (fun q => q.id)).1 usQ1).mpr (by decide)

/-- The key of every input element is represented in the dedupe output. -/
theorem dedupeByKeyAux_key_covers {T K : Type} [DecidableEq K] (f : T → K)
    (l : List T) (x : T) (hx : x ∈ l) (seen : List K) :
    f x ∈ seen ∨ f x ∈ (dedupeByKeyAux f l seen).map f := by
  induction l generalizing seen with
  | nil => cases hx
  | cons y ys ih =>
    simp only [dedupeByKeyAux]
    by_cases hy : f y ∈ seen
    · rw [if_pos hy]
      rcases List.mem_cons.mp hx with rfl | hx2
      · exact Or.inl hy
      · exact ih hx2 seen
    · rw [if_neg hy]
      rcases List.mem_cons.mp hx with rfl | hx2
      · exact Or.inr (by simp)
      · rcases ih hx2 (f y :: seen) with hin | hin
        · rcases List.mem_cons.mp hin with he | he
          · exact Or.inr (by simp [he])
          · exact Or.inl he
        · exact Or.inr (by simp [hin])

/-- The key of every input element appears among the keys of
dedupe_by_key's output. -/
theorem key_mem_dedupe_by_key {T K : Type} [DecidableEq K] (f : T → K)
    (l : List T) (x : T) (hx : x ∈ l) :
    f x ∈ (dedupe_by_key l f).map f := by
  rcases dedupeByKeyAux_key_covers f l x hx [] with h | h
  · cases h
  · exact h

/-- The locale step appends exactly the locale's filtered, rekeyed
candidates to the session accumulator, in both branches. -/
theorem localeStep_all_filtered (rf : String) (n : Nat) (so : Bool)
    (locale : String) (quests : List Quest) (s : CycleState) :
    (localeStep rf n so locale quests s).all_filtered_quests
      = s.all_filtered_quests
        ++ (filter_quests quests rf).map
            (fun sq => { sq with id := locale ++ ":" ++ sq.id }) := by
  simp only [localeStep]
  split <;> first | rfl | (split <;> rfl)

/-- The locale step never records a pacing delay. -/
theorem localeStep_delayLog (rf : String) (n : Nat) (so : Bool)
    (locale : String) (quests : List Quest) (s : CycleState) :
    (localeStep rf n so locale quests s).delayLog = s.delayLog := by
  simp only [localeStep]
  split <;> first | rfl | (split <;> rfl)

/-- The locale step only ever extends the in-memory known set. -/
theorem localeStep_stored_extend (rf : String) (n : Nat) (so : Bool)
    (locale : String) (quests : List Quest) (s : CycleState) :
    ∃ tail, (localeStep rf n so locale quests s).stored = s.stored ++ tail := by
  simp only [localeStep]
  split
  · split
    · exact ⟨[], by simp⟩
    · exact ⟨_, rfl⟩
  · split
    · exact ⟨[], by simp⟩
    · exact ⟨_, rfl⟩

/-- Under seed_only, the locale step dispatches nothing, leaves the known
set and the store untouched, and only accumulates the candidates. -/
theorem localeStep_seed (rf : String) (n : Nat) (locale : String)
    (quests : List Quest) (s : CycleState) :
    localeStep rf n true locale quests s
      = { s with
          all_filtered_quests :=
            (s.all_filtered_quests
              ++ (filter_quests quests rf).map
                  (fun sq => { sq with id := locale ++ ":" ++ sq.id })) } :=
  rfl

/-- Running the locale loop appends exactly the concatenation of each
locale's filtered, rekeyed candidates to the session accumulator. -/
theorem runLocales_all_filtered (rf : String) (n : Nat) (so : Bool)
    (fetch : String → List Quest) (rand : Nat → Nat) (locs : List String) :
    ∀ (i : Nat) (s : CycleState),
      (runLocales rf n so fetch rand i locs s).all_filtered_quests
        = s.all_filtered_quests ++ sessionCandidates fetch rf locs := by
  induction locs with
  | nil =>
    intro i s
    simp [runLocales, sessionCandidates]
  | cons locale rest ih =>
    intro i s
    simp only [runLocales]
    rw [ih, localeStep_all_filtered]
    by_cases hi : 0 < i <;>
      simp [hi, sessionCandidates, List.append_assoc]

/-- Running the locale loop appends exactly one pacing delay per locale
at positive index, none before the first. -/
theorem runLocales_delayLog (rf : String) (n : Nat) (so : Bool)
    (fetch : String → List Quest) (rand : Nat → Nat) (locs : List String) :
    ∀ (i : Nat) (s : CycleState),
      (runLocales rf n so fetch rand i locs s).delayLog
        = s.delayLog ++ delaysFrom rand i locs.length := by
  induction locs with
  | nil =>
    intro i s
    simp [runLocales, delaysFrom]
  | cons locale rest ih =>
    intro i s
    simp only [runLocales, List.length_cons]
    rw [ih, localeStep_delayLog]
    by_cases hi : 0 < i <;>
      simp [hi, delaysFrom, List.append_assoc]

/-- Under seed_only, the locale loop is a pure accumulation: no batch is
dispatched, the known set and the store are untouched. -/
theorem runLocales_seed (rf : String) (n : Nat)
    (fetch : String → List Quest) (rand : Nat → Nat) (locs : List String) :
    ∀ (i : Nat) (s : CycleState),
      runLocales rf n true fetch rand i locs s
        = { s with
            all_filtered_quests :=
              (s.all_filtered_quests ++ sessionCandidates fetch rf locs)
            delayLog := (s.delayLog ++ delaysFrom rand i locs.length) } := by
  induction locs with
  | nil =>
    intro i s
    simp [runLocales, sessionCandidates, delaysFrom]
  | cons locale rest ih =>
    intro i s
    simp only [runLocales, List.length_cons]
    rw [localeStep_seed, ih]
    by_cases hi : 0 < i <;>
      simp [hi, sessionCandidates, delaysFrom, List.append_assoc]

/-- Helper: the delay schedule from a positive start index has exactly
one entry per locale. -/
theorem delaysFrom_length_pos (rand : Nat → Nat) :
    ∀ (k i : Nat), 0 < i → (delaysFrom rand i k).length = k := by
  intro k
  induction k with
  | zero => intro i _; rfl
  | succ k ih =>
    intro i hi
    simp only [delaysFrom, if_pos hi, List.singleton_append, List.length_cons]
    rw [ih (i + 1) (by omega)]

/-- C2 (amended): the set persisted by the final save of the scan cycle
is the key-wise first-seen dedupe of the session accumulator alone — the
freshly-reloaded known set does not contribute to it. -/
theorem cycle_final_save_spec (fetch : String → List Quest) (n : Nat) (rf : String)
    (locales : List String) (isa : Bool) (rand : Nat → Nat) (store0 : List StoredQuest) :
    (check_quests_all_locales fetch n rf locales isa rand store0).all_filtered_quests
      = sessionCandidates fetch rf locales ∧
    (check_quests_all_locales fetch n rf locales isa rand store0).finalStore
      = dedupe_by_key (sessionCandidates fetch rf locales) (fun q => q.id) := by
  constructor
  · simp only [check_quests_all_locales]
    rw [runLocales_all_filtered]
    simp
  · simp only [check_quests_all_locales]
    rw [runLocales_all_filtered]
    simp

/-- C2 counterexample: a record present in the store at the step-3 reload
(for example one written by another code path during the cycle) is gone
from the set the final save persists. -/
theorem cycle_final_save_drops_record :
    zzQ9 ∈ (check_quests_all_locales (fun _ => [questQ1]) 1 "all" ["us"] false
        (fun _ => 0) [zzQ9]).reloaded ∧
    zzQ9 ∉ (check_quests_all_locales (fun _ => [questQ1]) 1 "all" ["us"] false
        (fun _ => 0) [zzQ9]).finalStore := by decide

/-- C5: a scan cycle starting from the empty store with
initial_send_all = false dispatches no notification batch at all — in the
per-locale steps and in the final cross-locale pass — and the final store
contains, by full composite id, every fetched, filtered, rekeyed
candidate of the cycle. -/
theorem seed_only_cycle_spec (fetch : String → List Quest) (n : Nat) (rf : String)
    (locales : List String) (rand : Nat → Nat) :
    (check_quests_all_locales fetch n rf locales false rand []).notifLog = [] ∧
    ∀ r ∈ sessionCandidates fetch rf locales,
      r.id ∈ ((check_quests_all_locales fetch n rf locales false rand []).finalStore.map
        (fun q => q.id)) := by
  constructor
  · simp [check_quests_all_locales, runLocales_seed]
  · intro r hr
    have h2 : (check_quests_all_locales fetch n rf locales false rand []).finalStore
        = dedupe_by_key (sessionCandidates fetch rf locales) (fun q => q.id) :=
      (cycle_final_save_spec fetch n rf locales false rand []).2
    rw [h2]
    exact key_mem_dedupe_by_key (fun q => q.id) _ r hr

/-- Witness for seed_only_cycle_spec: the seed cycle stores the rekeyed
record us:Q1 for the single fetched quest. -/
theorem seed_only_cycle_witness :
    usQ1.id ∈ ((check_quests_all_locales (fun _ => [questQ1]) 1 "all" ["us"] false
      (fun _ => 0) []).finalStore.map (fun q => q.id)) :=
  (seed_only_cycle_spec (fun _ => [questQ1]) 1 "all" ["us"] (fun _ => 0)).2
    usQ1 (by decide)

/-- C9 (amended): pacing delays are recorded only before locales at
positive index — none before the first, exactly one per later locale —
and every possible delay lies in the inclusive range 60 to 70; under a
uniform random byte the eleven values are not equally likely: 60 arises
from 24 of the 256 bytes, 63 from 23. -/
theorem pacing_delay_spec :
    (∀ b, 60 ≤ pacingDelay b ∧ pacingDelay b ≤ 70) ∧
    (∀ (fetch : String → List Quest) (n : Nat) (rf : String) (locales : List String)
        (isa : Bool) (rand : Nat → Nat) (store0 : List StoredQuest),
      (check_quests_all_locales fetch n rf locales isa rand store0).delayLog
        = delaysFrom rand 0 locales.length) ∧
    (∀ (rand : Nat → Nat) (k : Nat), delaysFrom rand 0 (k + 1) = delaysFrom rand 1 k) ∧
    (∀ (rand : Nat → Nat) (k : Nat), (delaysFrom rand 1 k).length = k) ∧
    ((Finset.range 256).filter (fun b => pacingDelay b = 60)).card = 24 ∧
    ((Finset.range 256).filter (fun b => pacingDelay b = 63)).card = 23 := by
  refine ⟨?_, ?_, ?_, ?_, by decide, by decide⟩
  · intro b
    have h : b % 256 % 11 < 11 := Nat.mod_lt _ (by norm_num)
    unfold pacingDelay
    omega
  · intro fetch n rf locales isa rand store0
    simp only [check_quests_all_locales]
    rw [runLocales_delayLog]
    simp
  · intro rand k
    simp [delaysFrom]
  · intro rand k
    exact delaysFrom_length_pos rand k 1 (by omega)

/-- C9 counterexample: under a uniformly distributed random byte the
eleven delay values are not equally likely — the modulo bias of
u8 % 11 gives 60 a count of 24 against 23 for 63. -/
theorem pacing_delay_not_uniform :
    ((Finset.range 256).filter (fun b => pacingDelay b = 60)).card
      ≠ ((Finset.range 256).filter (fun b => pacingDelay b = 63)).card := by decide

/-- A batch in the log after a locale step was either already there or
contains only quests whose upstream id is outside the base-id set of the
known set at the start of the step — the step-2c suppression. -/
theorem localeStep_notifLog_suppressed (rf : String) (n : Nat) (so : Bool)
    (locale : String) (quests : List Quest) (s : CycleState) :
    ∀ b ∈ (localeStep rf n so locale quests s).notifLog,
      b ∈ s.notifLog ∨
      ∀ q ∈ b, q.config.id ∉ s.stored.map (fun r => baseId r.id) := by
  simp only [localeStep]
  split
  · split
    · intro b hb
      exact Or.inl hb
    · intro b hb
      rcases List.mem_append.mp hb with h | h
      · exact Or.inl h
      · right
        have hb2 := List.eq_of_mem_replicate h
        subst hb2
        intro q hq
        rw [List.mem_filter] at hq
        obtain ⟨hq1, hq2⟩ := hq
        simp only [List.contains, List.elem_eq_mem, decide_eq_true_eq, List.mem_map] at hq2
        obtain ⟨x, hx, hxid⟩ := hq2
        rw [List.mem_filter] at hx
        obtain ⟨hx1, hx2⟩ := hx
        simp only [List.contains, Bool.not_eq_true', List.elem_eq_mem,
          decide_eq_false_iff_not] at hx2
        rw [← hxid]
        intro hc
        rw [List.mem_map] at hc
        obtain ⟨a, ha, he⟩ := hc
        exact hx2 ⟨a, ha, he⟩
  · split
    · intro b hb
      exact Or.inl hb
    · intro b hb
      rcases List.mem_append.mp hb with h | h
      · exact Or.inl h
      · right
        have hb2 := List.eq_of_mem_replicate h
        subst hb2
        intro q hq
        rw [List.mem_filter] at hq
        obtain ⟨hq1, hq2⟩ := hq
        simp only [List.contains, List.elem_eq_mem, decide_eq_true_eq, List.mem_map] at hq2
        obtain ⟨x, hx, hxid⟩ := hq2
        rw [List.mem_filter] at hx
        obtain ⟨hx1, hx2⟩ := hx
        simp only [List.contains, Bool.not_eq_true', List.elem_eq_mem,
          decide_eq_false_iff_not] at hx2
        rw [← hxid]
        intro hc
        rw [List.mem_map] at hc
        obtain ⟨a, ha, he⟩ := hc
        exact hx2 ⟨a, ha, he⟩

/-- Along the whole locale loop, every batch dispatched by a per-locale
step contains only quests whose upstream id is outside the base-id set
of the known set the loop started from. -/
theorem runLocales_notifLog_suppressed (rf : String) (n : Nat) (so : Bool)
    (fetch : String → List Quest) (rand : Nat → Nat) (locs : List String) :
    ∀ (i : Nat) (s : CycleState),
      ∀ b ∈ (runLocales rf n so fetch rand i locs s).notifLog,
        b ∈ s.notifLog ∨
        ∀ q ∈ b, q.config.id ∉ s.stored.map (fun r => baseId r.id) := by
  induction locs with
  | nil =>
    intro i s b hb
    exact Or.inl hb
  | cons locale rest ih =>
    intro i s b hb
    simp only [runLocales] at hb
    by_cases hi : 0 < i
    · rw [if_pos hi] at hb
      rcases ih (i + 1) _ b hb with h | h
      · rcases localeStep_notifLog_suppressed rf n so locale (fetch locale) _ b h with
          h2 | h2
        · exact Or.inl h2
        · exact Or.inr h2
      · right
        intro q hq hmem
        obtain ⟨tail, ht⟩ := localeStep_stored_extend rf n so locale (fetch locale)
          { s with delayLog := s.delayLog ++ [pacingDelay (rand i)] }
        apply h q hq
        rw [ht, List.map_append]
        exact List.mem_append_left _ hmem
    · rw [if_neg hi] at hb
      rcases ih (i + 1) _ b hb with h | h
      · rcases localeStep_notifLog_suppressed rf n so locale (fetch locale) _ b h with
          h2 | h2
        · exact Or.inl h2
        · exact Or.inr h2
      · right
        intro q hq hmem
        obtain ⟨tail, ht⟩ := localeStep_stored_extend rf n so locale (fetch locale) s
        apply h q hq
        rw [ht, List.map_append]
        exact List.mem_append_left _ hmem

/-- C1 (amended): within the per-locale portion of a scan cycle, the
step-2c base-id suppression guarantees that no per-locale dispatch
carries a quest whose base id was already in the known set loaded at the
start of the cycle under any locale tag. The end-of-cycle cross-locale
pass is not covered by the suppression: it compares full composite ids
and can re-dispatch such a quest (see cycle_renotifies_cross_locale). -/
theorem perLocale_dispatch_suppressed (fetch : String → List Quest) (n : Nat)
    (rf : String) (locales : List String) (isa : Bool) (rand : Nat → Nat)
    (store0 : List StoredQuest) :
    ∀ b ∈ (runLocales rf n (store0.isEmpty && !isa) fetch rand 0 locales
        { stored := store0, store := store0, all_filtered_quests := [],
          notifLog := [], delayLog := [] }).notifLog,
      ∀ q ∈ b, q.config.id ∉ store0.map (fun r => baseId r.id) := by
  intro b hb
  rcases runLocales_notifLog_suppressed rf n (store0.isEmpty && !isa) fetch rand
      locales 0 _ b hb with h | h
  · cases h
  · exact h

/-- Witness for perLocale_dispatch_suppressed: a per-locale dispatch
happens for Q1 against a known set holding only base Q9, and indeed Q1
is not among the known base ids. -/
theorem perLocale_dispatch_suppressed_witness :
    questQ1.config.id ∉ [zzQ9].map (fun r => baseId r.id) :=
  perLocale_dispatch_suppressed (fun _ => [questQ1]) 1 "all" ["us"] true (fun _ => 0)
    [zzQ9] [questQ1] (by decide) questQ1 (by decide)

/-- C1 counterexample: with us:Q1 already known, the quest Q1 arriving
under the eu locale tag is suppressed by the per-locale base-id check,
yet the end-of-cycle cross-locale pass compares full composite ids and
dispatches the very same underlying quest again. -/
theorem cycle_renotifies_cross_locale :
    baseId usQ1.id = questQ1.config.id ∧
    (check_quests_all_locales (fun _ => [questQ1]) 1 "all" ["eu"] false
      (fun _ => 0) [usQ1]).notifLog = [[questQ1]] := by decide

/-- C3 (amended): in the ingest handler the cross-region base-id
suppression applies only to the notification payload, and only when
notifiers are configured; the merge and the response use the full-id new
set: accepted counts the incoming records whose full composite id is not
yet known, the merged store is the first-seen dedupe of known ++ new,
and deduped is the merged total minus the previous total. -/
theorem ingest_handler_spec (region : String) (quests : List Quest) (n : Nat)
    (stored : List StoredQuest) :
    (ingest_handler region quests n stored).accepted
      = (find_new_quests
          (quests.map (fun q =>
            let sq := StoredQuest.fromQuest q
            { sq with id := region ++ ":" ++ sq.id })) stored).length ∧
    (find_new_quests
        (quests.map (fun q =>
          let sq := StoredQuest.fromQuest q
          { sq with id := region ++ ":" ++ sq.id })) stored = [] →
      (ingest_handler region quests n stored).store = stored ∧
      (ingest_handler region quests n stored).deduped = 0) ∧
    (find_new_quests
        (quests.map (fun q =>
          let sq := StoredQuest.fromQuest q
          { sq with id := region ++ ":" ++ sq.id })) stored ≠ [] →
      (ingest_handler region quests n stored).store
        = dedupe_by_key
            (stored ++ find_new_quests
              (quests.map (fun q =>
                let sq := StoredQuest.fromQuest q
                { sq with id := region ++ ":" ++ sq.id })) stored)
            (fun q => q.id) ∧
      (ingest_handler region quests n stored).deduped
        = (ingest_handler region quests n stored).store.length - stored.length) ∧
    (∀ b ∈ (ingest_handler region quests n stored).notifLog,
      ∀ q ∈ b, q.config.id ∉ stored.map (fun r => baseId r.id)) := by
  simp only [ingest_handler]
  split
  case isTrue h =>
    have he : find_new_quests
        (quests.map (fun q =>
          let sq := StoredQuest.fromQuest q
          { sq with id := region ++ ":" ++ sq.id })) stored = [] := by
      rwa [List.isEmpty_iff] at h
    refine ⟨?_, fun _ => ⟨rfl, rfl⟩, fun hne => absurd he hne, ?_⟩
    · rw [he]
      rfl
    · intro b hb
      exact absurd hb (List.not_mem_nil b)
  case isFalse h =>
    refine ⟨rfl, fun he => ?_, fun _ => ⟨rfl, rfl⟩, ?_⟩
    · exfalso
      apply h
      rw [he]
      rfl
    · intro b hb
      split at hb
      · split at hb
        · exact absurd hb (List.not_mem_nil b)
        · have hb2 := List.eq_of_mem_replicate hb
          subst hb2
          intro q hq
          rw [List.mem_filter] at hq
          obtain ⟨hq1, hq2⟩ := hq
          simp only [List.contains, List.elem_eq_mem, decide_eq_true_eq] at hq2
          rw [List.mem_filter] at hq2
          obtain ⟨hq3, hq4⟩ := hq2
          simp only [List.contains, Bool.not_eq_true', List.elem_eq_mem,
            decide_eq_false_iff_not] at hq4
          exact hq4
      · exact absurd hb (List.not_mem_nil b)

/-- Witness for ingest_handler_spec: re-ingesting a record whose full
composite id eu:Q1 is already stored accepts nothing, changes nothing
and reports deduped = 0. -/
theorem ingest_handler_spec_witness :
    (ingest_handler "eu" [questQ1] 1
        [{ StoredQuest.fromQuest questQ1 with id := "eu:Q1" }]).store
      = [{ StoredQuest.fromQuest questQ1 with id := "eu:Q1" }] ∧
    (ingest_handler "eu" [questQ1] 1
        [{ StoredQuest.fromQuest questQ1 with id := "eu:Q1" }]).deduped = 0 :=
  (ingest_handler_spec "eu" [questQ1] 1
    [{ StoredQuest.fromQuest questQ1 with id := "eu:Q1" }]).2.1 (by decide)

/-- C3 counterexample: with us:Q1 known, ingesting the same base quest
under region eu reports accepted = 1 — not 0 — and merges eu:Q1 into the
store even though base id Q1 already appears in the known set. -/
theorem ingest_cross_region_duplicate_merged :
    (ingest_handler "eu" [questQ1] 1 [usQ1]).accepted = 1 ∧
    { StoredQuest.fromQuest questQ1 with id := "eu:Q1" }
      ∈ (ingest_handler "eu" [questQ1] 1 [usQ1]).store := by decide

/-- C4 (amended): individual loads and saves of the shared store are
atomic, but the handler's load-decide-save sequence is not one critical
section: run one after the other, the two racing requests produce
exactly one dispatch (the second is suppressed by base id), while the
interleaving in which both load before either commits produces two. -/
theorem ingest_race_dispatch_counts :
    (runSched 1 raceInit [false, false, true, true]).dispatches = 1 ∧
    (runSched 1 raceInit [false, true, false, true]).dispatches = 2 := by decide

/-- C4 counterexample: the interleaving where both requests load before
either commits dispatches two notifications for the same base id under
two regions, contradicting the claimed exactly-one guarantee. -/
theorem ingest_race_double_dispatch :
    (runSched 1 raceInit [false, true, false, true]).dispatches = 2 := by decide

end Qwesty
